import Mathlib

set_option maxHeartbeats 1000000
set_option maxRecDepth 4096

/-! Verification of the XSD generator of the xml-to-xsd-converter repository.

The core function is generateXsd in src/xsdGenerator.js.  It receives raw
XML text, hands it to the external DOM parser, checks the parse result for
a parser-error node and then for a missing root element, traverses the
parsed tree with processNode while accumulating one record per distinct
tag name in two insertion ordered Maps (elementInfo and elementOrder),
and finally renders an XSD string from the accumulated records.

The DOM parser itself is an external collaborator (the browser DOMParser);
it is modelled abstractly as the parse result it returns: an optional
parser-error diagnostic text together with an optional root node.  The
generator only reads attribute names, tag names and whether trimmed text
is empty, so nodes carry exactly that data.  JavaScript Map and Set keep
insertion order; they are modelled as association lists and
duplicate-free lists with append-on-new-key semantics. -/

/-- JS Set.add: append the element unless already present, keeping insertion
order. -/
def setAdd (s : List String) (x : String) : List String :=
  if x ∈ s then s else s ++ [x]

/-- JS Map.get, as an association-list lookup on the first matching key. -/
def mapGet {α : Type} (m : List (String × α)) (k : String) : Option α :=
  (m.find? (fun p => p.1 = k)).map (fun p => p.2)

/-- JS Map.has. -/
def mapHas {α : Type} (m : List (String × α)) (k : String) : Bool :=
  m.any (fun p => p.1 = k)

/-- JS Map.set: update the entry in place when the key exists, else append a
new entry at the end. -/
def mapSet {α : Type} (m : List (String × α)) (k : String) (v : α) : List (String × α) :=
  if mapHas m k then m.map (fun p => if p.1 = k then (k, v) else p) else m ++ [(k, v)]

/-- A parsed DOM node as consumed by the generator: element nodes carry the
tag name, the attribute names in document order and the child nodes; text
nodes carry their nodeValue; other node kinds (comments, processing
instructions) are skipped by the traversal. -/
inductive XmlNode : Type where
  | element (tagName : String) (attributeNames : List String) (childNodes : List XmlNode)
  | text (nodeValue : String)
  | other
deriving Repr

/-- The per-tag record stored as a value of the elementInfo map: the set of
attribute names, the set of distinct child tag names and the text flag. -/
structure ElementInfo : Type where
  attributes : List String
  children : List String
  hasTextContent : Bool
deriving Repr, DecidableEq

/-- The record created on the first visit of a tag (line 501 of the
source): both sets empty and the text flag down. -/
def emptyInfo : ElementInfo := ⟨[], [], false⟩

/-- The two insertion ordered maps mutated by processNode: elementInfo keyed
by tag name, and elementOrder keeping the captured child order per tag. -/
structure AccState : Type where
  elementInfo : List (String × ElementInfo)
  elementOrder : List (String × List String)
deriving Repr, DecidableEq

/-- Read the record of a tag; total with the fresh record as default (the
source only reads records that exist). -/
def getInfo (st : AccState) (n : String) : ElementInfo :=
  (mapGet st.elementInfo n).getD emptyInfo

/-- Write back the record of a tag. -/
def setInfo (st : AccState) (n : String) (i : ElementInfo) : AccState :=
  { st with elementInfo := mapSet st.elementInfo n i }

/-- Read the captured child order of a tag; total with the empty order as
default. -/
def getOrder (st : AccState) (n : String) : List String :=
  (mapGet st.elementOrder n).getD []

/-- Write back the captured child order of a tag. -/
def setOrder (st : AccState) (n : String) (o : List String) : AccState :=
  { st with elementOrder := mapSet st.elementOrder n o }

/-- Mark a tag as directly containing non-blank text (info.hasTextContent =
true in the source). -/
def setHasText (st : AccState) (n : String) : AccState :=
  setInfo st n { getInfo st n with hasTextContent := true }

/-- Lines 500-507 of the source: on the first visit of a tag, create its
record and its empty order entry simultaneously. -/
def ensureRecord (st : AccState) (n : String) : AccState :=
  if mapHas st.elementInfo n then st
  else { elementInfo := mapSet st.elementInfo n emptyInfo,
         elementOrder := mapSet st.elementOrder n [] }

/-- Lines 515-519 of the source: merge every attribute name of this element
instance into the attribute set of its tag. -/
def addAttributes (st : AccState) (n : String) (attrs : List String) : AccState :=
  setInfo st n { getInfo st n with attributes := attrs.foldl setAdd (getInfo st n).attributes }

/-- One element child inside the childNodes loop of processNode
(lines 524-539 of the source): add the child tag to the children set, then
possibly push it onto the captured order, threading the local
childrenProcessedInThisNode set.  Returns the updated local set together
with the new accumulation state. -/
def childStep (en cn : String) (proc : List String) (st : AccState) : List String × AccState :=
  let st1 := setInfo st en { getInfo st en with children := setAdd (getInfo st en).children cn }
  let ord := getOrder st1 en
  if ord.length = 0 ∨ cn ∉ ord then
    if cn ∉ proc ∧ ord.length = 0 then
      (setAdd proc cn, setOrder st1 en (ord ++ [cn]))
    else if cn ∉ ord then
      (proc, setOrder st1 en (ord ++ [cn]))
    else (proc, st1)
  else (proc, st1)

mutual
/-- processNode from the source (lines 490-553): a non element node can only
raise the text flag of its parent record when its trimmed value is non
empty and the parent name is a truthy key of elementInfo; an element node
gets a record, merges its attribute names and then walks its child nodes. -/
def processNode : XmlNode → Option String → AccState → AccState
  | XmlNode.text v, parentName, st =>
      (match parentName with
       | some p =>
           if v.trim ≠ "" ∧ p ≠ "" ∧ mapHas st.elementInfo p then setHasText st p else st
       | none => st)
  | XmlNode.other, _, st => st
  | XmlNode.element name attrs children, _, st =>
      processChildren name children [] (addAttributes (ensureRecord st name) name attrs)

/-- The childNodes forEach loop of processNode (lines 523-545): element
children run childStep and then the recursive processNode call; text
children with non-blank value raise the text flag of the enclosing tag;
other node kinds are skipped. -/
def processChildren : String → List XmlNode → List String → AccState → AccState
  | _, [], _, st => st
  | en, XmlNode.element cn cattrs ckids :: cs, proc, st =>
      let pr := childStep en cn proc st
      processChildren en cs pr.1 (processNode (XmlNode.element cn cattrs ckids) (some en) pr.2)
  | en, XmlNode.text v :: cs, proc, st =>
      processChildren en cs proc (if v.trim ≠ "" then setHasText st en else st)
  | en, XmlNode.other :: cs, proc, st =>
      processChildren en cs proc st
end

/-- One child reference line inside a sequence content model (line 603). -/
def refLine (c : String) : String :=
  "      <xs:element ref=\"tns:" ++ c ++ "\" minOccurs=\"0\" maxOccurs=\"unbounded\"/>\n"

/-- One attribute declaration line of a complex type (line 627). -/
def attrLine (a : String) : String :=
  "    <xs:attribute name=\"" ++ a ++ "\" type=\"xs:string\" use=\"optional\"/>\n"

/-- One attribute declaration line inside a simpleContent extension
(line 617). -/
def simpleAttrLine (a : String) : String :=
  "        <xs:attribute name=\"" ++ a ++ "\" type=\"xs:string\" use=\"optional\"/>\n"

/-- The expression new Set([...a, ...b]) of line 600, in iteration order:
deduplicating left-to-right insertion. -/
def jsSetUnion (a b : List String) : List String := (a ++ b).foldl setAdd []

/-- The global element declaration of one tag (lines 566-579): a bare
string-typed element when the record has no children, no attributes and
the text flag up, else a reference to the generated per-tag type. -/
def globalDecl (name : String) (info : ElementInfo) : String :=
  if info.children.isEmpty && info.attributes.isEmpty && info.hasTextContent then
    "  <xs:element name=\"" ++ name ++ "\" type=\"xs:string\"/>\n"
  else
    "  <xs:element name=\"" ++ name ++ "\" type=\"tns:" ++ name ++ "Type\"/>\n"

/-- The complex type definition of one tag (lines 585-632), or the empty
string when the record needs none.  The string replace of line 612 would
rewrite the already-emitted header to drop the mixed marker, but in that
branch hasChildren is false, hence isMixed is false and the marker was
never emitted: the replace is the identity and is therefore omitted. -/
def typeDef (name : String) (info : ElementInfo) (orderEntry : Option (List String)) : String :=
  let hasChildren := !info.children.isEmpty
  let hasAttributes := !info.attributes.isEmpty
  if hasChildren || hasAttributes || (!info.hasTextContent && !hasChildren && !hasAttributes) then
    let isMixed := info.hasTextContent && hasChildren
    let head := "  <xs:complexType name=\"" ++ name ++ "Type\""
      ++ (if isMixed then " mixed=\"true\"" else "") ++ ">\n"
    let attrBlock := String.join (info.attributes.map attrLine)
    if hasChildren then
      let childrenOrder := orderEntry.getD info.children
      let allChildren := jsSetUnion childrenOrder info.children
      head ++ "    <xs:sequence>\n" ++ String.join (allChildren.map refLine)
        ++ "    </xs:sequence>\n" ++ attrBlock ++ "  </xs:complexType>\n\n"
    else if !hasChildren && !info.hasTextContent then
      head ++ "    <xs:sequence minOccurs=\"0\"/>\n" ++ attrBlock ++ "  </xs:complexType>\n\n"
    else if info.hasTextContent && !hasChildren && hasAttributes then
      head ++ "    <xs:simpleContent>\n" ++ "      <xs:extension base=\"xs:string\">\n"
        ++ String.join (info.attributes.map simpleAttrLine)
        ++ "      </xs:extension>\n" ++ "    </xs:simpleContent>\n" ++ "  </xs:complexType>\n\n"
    else
      head ++ attrBlock ++ "  </xs:complexType>\n\n"
  else ""

/-- The XML declaration line opening the output (line 558). -/
def xmlDeclLine : String := "<?xml version=\"1.0\" encoding=\"UTF-8\"?>\n"

/-- The fixed schema opening tag with its namespace bindings
(lines 559-562). -/
def schemaOpenTag : String :=
  "<xs:schema xmlns:xs=\"http://www.w3.org/2001/XMLSchema\"\n"
  ++ "           targetNamespace=\"http://example.com/generatedSchema\"\n"
  ++ "           xmlns:tns=\"http://example.com/generatedSchema\"\n"
  ++ "           elementFormDefault=\"qualified\">\n\n"

/-- The global element declarations, iterating the elementInfo map in key
insertion order (lines 566-579). -/
def globalsSection (st : AccState) : String :=
  String.join (st.elementInfo.map (fun p => globalDecl p.1 p.2))

/-- The complex type definitions, iterating the elementInfo entries in
insertion order and consulting elementOrder per tag (lines 585-632). -/
def typesSection (st : AccState) : String :=
  String.join (st.elementInfo.map (fun p => typeDef p.1 p.2 (mapGet st.elementOrder p.1)))

/-- The full rendered schema document (lines 558-636). -/
def emitXsd (st : AccState) : String :=
  xmlDeclLine ++ schemaOpenTag
  ++ "  <!-- Global Element Declarations -->\n" ++ globalsSection st ++ "\n"
  ++ "  <!-- Complex Type Definitions -->\n" ++ typesSection st
  ++ "</xs:schema>\n"

/-- The observable outcome of one generateXsd call: either a thrown error
message together with whether the parser diagnostic was logged to the
console, or the returned schema text. -/
inductive GenOutcome : Type where
  | failure (message : String) (loggedDiagnostic : Bool)
  | ok (xsd : String)
deriving Repr, DecidableEq

/-- Splitting a character list at every newline, matching the JS
String.split with separator newline. -/
def splitOnNl : List Char → List (List Char)
  | [] => [[]]
  | c :: cs =>
    let r := splitOnNl cs
    if c = '\n' then [] :: r
    else
      match r with
      | [] => [[c]]
      | h :: t => (c :: h) :: t

/-- The expression parserError.textContent.split-newline index 1: the second
line of the diagnostic when the diagnostic has one. -/
def secondLine (t : String) : Option String :=
  ((splitOnNl t.data).map (fun l => String.mk l)).get? 1

/-- The message thrown on a parser error (line 479): the second line of the
diagnostic, or the fixed fallback when that line is missing or empty. -/
def parseErrorMessage (t : String) : String :=
  "Invalid XML: " ++ (match secondLine t with
    | some l => if l = "" then "Parsing failed." else l
    | none => "Parsing failed.")

/-- The message thrown when no root element is present (line 484). -/
def noRootMessage : String := "Invalid XML: No root element found."

/-- The parse result handed back by the external DOM parser, modelled per
the capability contract: an optional parser-error diagnostic text and an
optional root element. -/
structure XmlDoc : Type where
  parserError : Option String
  documentElement : Option XmlNode

/-- generateXsd (lines 471-637): surface a parser error first (logging the
diagnostic), then the missing-root error, else traverse from the root with
an empty accumulation state and render the schema. -/
def generateXsd (doc : XmlDoc) : GenOutcome :=
  match doc.parserError with
  | some t => GenOutcome.failure (parseErrorMessage t) true
  | none =>
    match doc.documentElement with
    | none => GenOutcome.failure noRootMessage false
    | some root => GenOutcome.ok (emitXsd (processNode root none ⟨[], []⟩))

/-- Substring containment, matching the JS String.includes used to phrase
the diagnostic-inclusion property. -/
def strIncludes (hay sub : String) : Prop := sub.data <:+: hay.data

instance (hay sub : String) : Decidable (strIncludes hay sub) :=
  List.decidableInfix sub.data hay.data

/-! Basic lemmas about the JS collection primitives. -/

theorem mem_setAdd_iff {s : List String} {x y : String} :
    y ∈ setAdd s x ↔ y ∈ s ∨ y = x := by
  unfold setAdd
  by_cases h : x ∈ s
  · simp only [if_pos h]
    constructor
    · exact fun hy => Or.inl hy
    · rintro (hy | rfl) <;> assumption
  · simp [if_neg h]

theorem mem_setAdd_self (s : List String) (x : String) : x ∈ setAdd s x := by
  rw [mem_setAdd_iff]; exact Or.inr rfl

theorem mem_setAdd_of_mem {s : List String} {y : String} (x : String) (h : y ∈ s) :
    y ∈ setAdd s x := by
  rw [mem_setAdd_iff]; exact Or.inl h

theorem setAdd_nodup {s : List String} (x : String) (h : s.Nodup) : (setAdd s x).Nodup := by
  unfold setAdd
  by_cases hx : x ∈ s
  · simpa [if_pos hx]
  · rw [if_neg hx, List.nodup_append]
    refine ⟨h, List.nodup_singleton x, ?_⟩
    intro a ha hax
    rw [List.mem_singleton] at hax
    exact hx (hax ▸ ha)

theorem foldl_setAdd_nodup : ∀ (b a : List String), a.Nodup → (List.foldl setAdd a b).Nodup
  | [], _, ha => ha
  | x :: xs, a, ha => foldl_setAdd_nodup xs (setAdd a x) (setAdd_nodup x ha)

theorem mem_foldl_setAdd : ∀ (b a : List String) (y : String),
    y ∈ List.foldl setAdd a b ↔ y ∈ a ∨ y ∈ b
  | [], a, y => by simp
  | x :: xs, a, y => by
      rw [List.foldl_cons, mem_foldl_setAdd xs (setAdd a x) y, mem_setAdd_iff]
      constructor
      · rintro ((hy | rfl) | hy)
        · exact Or.inl hy
        · exact Or.inr (List.mem_cons_self _ _)
        · exact Or.inr (List.mem_cons_of_mem _ hy)
      · rintro (hy | hy)
        · exact Or.inl (Or.inl hy)
        · rcases List.mem_cons.mp hy with rfl | hy
          · exact Or.inl (Or.inr rfl)
          · exact Or.inr hy

theorem foldl_setAdd_eq : ∀ (b a : List String), b.Nodup →
    List.foldl setAdd a b = a ++ b.filter (fun c => decide (c ∉ a))
  | [], a, _ => by simp
  | x :: xs, a, hb => by
      have hxs : xs.Nodup := (List.nodup_cons.mp hb).2
      have hxnot : x ∉ xs := (List.nodup_cons.mp hb).1
      rw [List.foldl_cons, foldl_setAdd_eq xs (setAdd a x) hxs]
      by_cases hx : x ∈ a
      · have h1 : setAdd a x = a := by unfold setAdd; rw [if_pos hx]
        rw [h1, List.filter_cons]
        simp [hx]
      · have h1 : setAdd a x = a ++ [x] := by unfold setAdd; rw [if_neg hx]
        have hcong : ∀ c ∈ xs, (decide (c ∉ a ++ [x])) = (decide (c ∉ a)) := by
          intro c hc
          have hcx : c ≠ x := fun hh => hxnot (hh ▸ hc)
          simp [List.mem_append, hcx]
        rw [h1, List.filter_congr hcong, List.filter_cons]
        simp [hx]

theorem jsSetUnion_eq {a b : List String} (ha : a.Nodup) (hb : b.Nodup) :
    jsSetUnion a b = a ++ b.filter (fun c => decide (c ∉ a)) := by
  unfold jsSetUnion
  rw [List.foldl_append, foldl_setAdd_eq a [] ha, foldl_setAdd_eq b _ hb]
  simp


theorem mapHas_iff {α : Type} {m : List (String × α)} {k : String} :
    mapHas m k = true ↔ ∃ p ∈ m, p.1 = k := by
  unfold mapHas
  simp [List.any_eq_true]

theorem mapGet_cons {α : Type} (q : String × α) (m : List (String × α)) (k : String) :
    mapGet (q :: m) k = if q.1 = k then some q.2 else mapGet m k := by
  unfold mapGet
  by_cases h : q.1 = k
  · rw [List.find?_cons_of_pos _ (by simpa using h), if_pos h]
    rfl
  · rw [List.find?_cons_of_neg _ (by simpa using h), if_neg h]

theorem mapHas_cons {α : Type} (q : String × α) (m : List (String × α)) (k : String) :
    mapHas (q :: m) k = (decide (q.1 = k) || mapHas m k) := by
  unfold mapHas
  simp [List.any_cons]

theorem mapGet_append_single {α : Type} (m : List (String × α)) (k : String) (v : α)
    (h : mapHas m k = false) : mapGet (m ++ [(k, v)]) k = some v := by
  induction m with
  | nil =>
      unfold mapGet
      rw [List.nil_append, List.find?_cons_of_pos _ (by simp)]
      rfl
  | cons q qs ih =>
      rw [mapHas_cons] at h
      rcases Bool.or_eq_false_iff.mp h with ⟨h1, h2⟩
      have h1' : ¬ q.1 = k := by simpa using h1
      rw [List.cons_append, mapGet_cons, if_neg h1']
      exact ih h2

theorem mapGet_append_single_ne {α : Type} (m : List (String × α)) (k k' : String) (v : α)
    (h : k' ≠ k) : mapGet (m ++ [(k, v)]) k' = mapGet m k' := by
  induction m with
  | nil =>
      unfold mapGet
      rw [List.nil_append, List.find?_cons_of_neg _ (by simpa using Ne.symm h)]
  | cons q qs ih =>
      rw [List.cons_append, mapGet_cons, mapGet_cons]
      by_cases h1 : q.1 = k'
      · rw [if_pos h1, if_pos h1]
      · rw [if_neg h1, if_neg h1]
        exact ih

theorem mapGet_map_update_self {α : Type} (m : List (String × α)) (k : String) (v : α)
    (h : mapHas m k = true) :
    mapGet (m.map (fun p => if p.1 = k then (k, v) else p)) k = some v := by
  induction m with
  | nil => simp [mapHas] at h
  | cons q qs ih =>
      rw [List.map_cons]
      by_cases h1 : q.1 = k
      · rw [if_pos h1, mapGet_cons]
        simp
      · rw [if_neg h1, mapGet_cons, if_neg h1]
        apply ih
        rw [mapHas_cons] at h
        simp only [Bool.or_eq_true, decide_eq_true_eq] at h
        rcases h with h' | h'
        · exact absurd h' h1
        · exact h'

theorem mapGet_map_update_ne {α : Type} (m : List (String × α)) (k k' : String) (v : α)
    (h : k' ≠ k) :
    mapGet (m.map (fun p => if p.1 = k then (k, v) else p)) k' = mapGet m k' := by
  induction m with
  | nil => rfl
  | cons q qs ih =>
      rw [List.map_cons]
      by_cases h1 : q.1 = k
      · rw [if_pos h1, mapGet_cons, mapGet_cons]
        have hk : ¬ ((k, v).1 = k') := fun hh => h (hh.symm)
        rw [if_neg hk, if_neg (by rw [h1]; exact fun hh => h hh.symm)]
        exact ih
      · rw [if_neg h1, mapGet_cons, mapGet_cons]
        by_cases h2 : q.1 = k'
        · rw [if_pos h2, if_pos h2]
        · rw [if_neg h2, if_neg h2]
          exact ih

theorem mapGet_set_self {α : Type} (m : List (String × α)) (k : String) (v : α) :
    mapGet (mapSet m k v) k = some v := by
  unfold mapSet
  by_cases h : mapHas m k
  · rw [if_pos h]
    exact mapGet_map_update_self m k v h
  · rw [if_neg h]
    exact mapGet_append_single m k v (by simpa using h)

theorem mapGet_set_ne {α : Type} (m : List (String × α)) (k k' : String) (v : α)
    (h : k' ≠ k) : mapGet (mapSet m k v) k' = mapGet m k' := by
  unfold mapSet
  by_cases hh : mapHas m k
  · rw [if_pos hh]
    exact mapGet_map_update_ne m k k' v h
  · rw [if_neg hh]
    exact mapGet_append_single_ne m k k' v h

theorem mem_mapSet {α : Type} {m : List (String × α)} {k : String} {v : α} {p : String × α}
    (hp : p ∈ mapSet m k v) : p = (k, v) ∨ (p ∈ m ∧ p.1 ≠ k) := by
  unfold mapSet at hp
  by_cases h : mapHas m k
  · rw [if_pos h] at hp
    rcases List.mem_map.mp hp with ⟨q, hq, hqe⟩
    by_cases h1 : q.1 = k
    · left
      rw [if_pos h1] at hqe
      exact hqe.symm
    · right
      rw [if_neg h1] at hqe
      exact ⟨hqe ▸ hq, hqe ▸ h1⟩
  · rw [if_neg h] at hp
    rcases List.mem_append.mp hp with hq | hq
    · right
      refine ⟨hq, fun hk => ?_⟩
      exact h (mapHas_iff.mpr ⟨p, hq, hk⟩)
    · left
      simpa using hq

theorem keys_mapSet {α : Type} (m : List (String × α)) (k : String) (v : α) :
    (mapSet m k v).map Prod.fst
      = if mapHas m k then m.map Prod.fst else m.map Prod.fst ++ [k] := by
  unfold mapSet
  by_cases h : mapHas m k
  · rw [if_pos h, if_pos h, List.map_map]
    apply List.map_congr_left
    intro p _
    by_cases h1 : p.1 = k
    · simp [h1]
    · simp [h1]
  · rw [if_neg h, if_neg h, List.map_append]
    rfl

theorem mapGet_mem {α : Type} {m : List (String × α)} {k : String} {v : α}
    (h : mapGet m k = some v) : (k, v) ∈ m := by
  unfold mapGet at h
  rcases Option.map_eq_some'.mp h with ⟨p, hp, hpv⟩
  have hmem := List.mem_of_find?_eq_some hp
  have hk : p.1 = k := by simpa using List.find?_some hp
  have : p = (k, v) := by
    cases p
    simp only [Prod.mk.injEq]
    exact ⟨hk, hpv⟩
  exact this ▸ hmem

/-! The C8 invariant: every captured child order list is duplicate free and
only mentions tags recorded in the children set of its key. -/

/-- The recorded distinct child tag set of a tag. -/
def childrenOf (st : AccState) (n : String) : List String := (getInfo st n).children

/-- The invariant claimed by C8 over one accumulation state. -/
def InvState (st : AccState) : Prop :=
  ∀ p ∈ st.elementOrder, p.2.Nodup ∧ ∀ c ∈ p.2, c ∈ childrenOf st p.1

instance (st : AccState) : Decidable (InvState st) := by
  unfold InvState
  infer_instance

theorem childrenOf_setInfo (st : AccState) (n : String) (i : ElementInfo) (m : String) :
    childrenOf (setInfo st n i) m = if m = n then i.children else childrenOf st m := by
  unfold childrenOf getInfo setInfo
  by_cases h : m = n
  · subst h
    simp [mapGet_set_self]
  · rw [if_neg h]
    simp [mapGet_set_ne _ _ _ _ h]

theorem childrenOf_setOrder (st : AccState) (n : String) (o : List String) (m : String) :
    childrenOf (setOrder st n o) m = childrenOf st m := rfl

theorem invState_setInfo_mono {st : AccState} {n : String} {i : ElementInfo}
    (hch : ∀ c ∈ childrenOf st n, c ∈ i.children) (h : InvState st) :
    InvState (setInfo st n i) := by
  intro p hp
  rcases h p hp with ⟨h1, h2⟩
  refine ⟨h1, fun c hc => ?_⟩
  rw [childrenOf_setInfo]
  by_cases he : p.1 = n
  · rw [if_pos he]
    exact hch c (he ▸ h2 c hc)
  · rw [if_neg he]
    exact h2 c hc

theorem inv_getOrder {st : AccState} (h : InvState st) (n : String) :
    (getOrder st n).Nodup ∧ ∀ c ∈ getOrder st n, c ∈ childrenOf st n := by
  unfold getOrder
  cases hg : mapGet st.elementOrder n with
  | none => simp
  | some o =>
      have hm : (n, o) ∈ st.elementOrder := mapGet_mem hg
      simpa using h (n, o) hm

theorem invState_setOrder_push {st : AccState} (en cn : String)
    (h : InvState st) (hcn : cn ∈ childrenOf st en) (hnotin : cn ∉ getOrder st en) :
    InvState (setOrder st en (getOrder st en ++ [cn])) := by
  intro p hp
  have hp' : p ∈ mapSet st.elementOrder en (getOrder st en ++ [cn]) := hp
  rcases mem_mapSet hp' with heq | ⟨hpm, hpn⟩
  · subst heq
    rcases inv_getOrder h en with ⟨hnd, hmem⟩
    constructor
    · rw [List.nodup_append]
      refine ⟨hnd, List.nodup_singleton cn, ?_⟩
      intro a ha hax
      rw [List.mem_singleton] at hax
      exact hnotin (hax ▸ ha)
    · intro c hc
      rw [childrenOf_setOrder]
      rcases List.mem_append.mp hc with hc | hc
      · exact hmem c hc
      · rw [List.mem_singleton] at hc
        exact hc ▸ hcn
  · rcases h p hpm with ⟨h1, h2⟩
    refine ⟨h1, fun c hc => ?_⟩
    rw [childrenOf_setOrder]
    exact h2 c hc

theorem invState_ensureRecord {st : AccState} (n : String) (h : InvState st) :
    InvState (ensureRecord st n) := by
  unfold ensureRecord
  by_cases hh : mapHas st.elementInfo n
  · rw [if_pos hh]
    exact h
  · rw [if_neg hh]
    intro p hp
    rcases mem_mapSet hp with heq | ⟨hpm, hpn⟩
    · subst heq
      exact ⟨List.nodup_nil, by simp⟩
    · rcases h p hpm with ⟨h1, h2⟩
      refine ⟨h1, fun c hc => ?_⟩
      have h2' := h2 c hc
      unfold childrenOf getInfo at h2' ⊢
      simpa [mapGet_set_ne _ _ _ _ hpn] using h2'

theorem invState_addAttributes {st : AccState} (n : String) (attrs : List String)
    (h : InvState st) : InvState (addAttributes st n attrs) :=
  invState_setInfo_mono (fun _ hc => hc) h

theorem invState_setHasText {st : AccState} (n : String) (h : InvState st) :
    InvState (setHasText st n) :=
  invState_setInfo_mono (fun _ hc => hc) h

theorem invState_childStep {st : AccState} (en cn : String) (proc : List String)
    (h : InvState st) : InvState (childStep en cn proc st).2 := by
  have h1 : InvState (setInfo st en
      { getInfo st en with children := setAdd (getInfo st en).children cn }) :=
    invState_setInfo_mono (fun c hc => mem_setAdd_of_mem cn hc) h
  simp only [childStep]
  set st1 := setInfo st en
      { getInfo st en with children := setAdd (getInfo st en).children cn } with hst1def
  have hcn : cn ∈ childrenOf st1 en := by
    rw [hst1def, childrenOf_setInfo, if_pos rfl]
    exact mem_setAdd_self _ _
  by_cases hA : (getOrder st1 en).length = 0 ∨ cn ∉ getOrder st1 en
  · rw [if_pos hA]
    by_cases hB : cn ∉ proc ∧ (getOrder st1 en).length = 0
    · rw [if_pos hB]
      have hord : getOrder st1 en = [] := List.length_eq_zero.mp hB.2
      exact invState_setOrder_push en cn h1 hcn (by rw [hord]; simp)
    · rw [if_neg hB]
      by_cases hC : cn ∉ getOrder st1 en
      · rw [if_pos hC]
        exact invState_setOrder_push en cn h1 hcn hC
      · rw [if_neg hC]
        exact h1
  · rw [if_neg hA]
    exact h1

theorem invState_processNode : ∀ (n : XmlNode) (pn : Option String) (st : AccState),
    InvState st → InvState (processNode n pn st) := by
  refine processNode.induct
    (fun n pn st => InvState st → InvState (processNode n pn st))
    (fun en cs proc st => InvState st → InvState (processChildren en cs proc st))
    ?_ ?_ ?_ ?_ ?_ ?_ ?_ ?_ ?_
  · intro v st p hcond h
    simp only [processNode]
    rw [if_pos hcond]
    exact invState_setHasText p h
  · intro v st p hcond h
    simp only [processNode]
    rw [if_neg hcond]
    exact h
  · intro v st h
    simpa only [processNode] using h
  · intro x st h
    simpa only [processNode] using h
  · intro name attrs children x st ih h
    simp only [processNode]
    exact ih (invState_addAttributes name attrs (invState_ensureRecord name h))
  · intro x x1 st h
    simpa only [processChildren] using h
  · intro en cn cattrs ckids cs proc st pr ih1 ih2 h
    simp only [processChildren]
    exact ih2 (ih1 (invState_childStep en cn proc h))
  · intro en v cs proc st ih h
    simp only [processChildren]
    apply ih
    by_cases hv : v.trim ≠ ""
    · rw [if_pos hv]
      exact invState_setHasText en h
    · rw [if_neg hv]
      exact h
  · intro en cs proc st ih h
    simp only [processChildren]
    exact ih h

/-! Key insertion-order stability: the traversal only ever appends new tag
names at the end of the elementInfo map, so the key sequence of any
earlier state is a prefix of the key sequence of any later state.  This is
the first-encounter ordering consumed by the emitter. -/

/-- The tag names of the accumulation map, in insertion order. -/
def keysOf (st : AccState) : List String := st.elementInfo.map Prod.fst

theorem keysOf_setInfo_pre (st : AccState) (n : String) (i : ElementInfo) :
    keysOf st <+: keysOf (setInfo st n i) := by
  unfold keysOf setInfo
  show st.elementInfo.map Prod.fst <+: (mapSet st.elementInfo n i).map Prod.fst
  rw [keys_mapSet]
  by_cases h : mapHas st.elementInfo n
  · rw [if_pos h]
  · rw [if_neg h]
    exact List.prefix_append _ _

theorem keysOf_ensureRecord_pre (st : AccState) (n : String) :
    keysOf st <+: keysOf (ensureRecord st n) := by
  unfold keysOf ensureRecord
  by_cases h : mapHas st.elementInfo n
  · rw [if_pos h]
  · rw [if_neg h]
    show st.elementInfo.map Prod.fst <+: (mapSet st.elementInfo n emptyInfo).map Prod.fst
    rw [keys_mapSet, if_neg h]
    exact List.prefix_append _ _

theorem childStep_elementInfo (en cn : String) (proc : List String) (st : AccState) :
    (childStep en cn proc st).2.elementInfo
      = mapSet st.elementInfo en
          { getInfo st en with children := setAdd (getInfo st en).children cn } := by
  simp only [childStep]
  split
  · split
    · rfl
    · split
      · rfl
      · rfl
  · rfl

theorem keysOf_childStep_pre (en cn : String) (proc : List String) (st : AccState) :
    keysOf st <+: keysOf (childStep en cn proc st).2 := by
  unfold keysOf
  rw [childStep_elementInfo, keys_mapSet]
  by_cases h : mapHas st.elementInfo en
  · rw [if_pos h]
  · rw [if_neg h]
    exact List.prefix_append _ _

theorem keysOf_processNode : ∀ (n : XmlNode) (pn : Option String) (st : AccState),
    keysOf st <+: keysOf (processNode n pn st) := by
  refine processNode.induct
    (fun n pn st => keysOf st <+: keysOf (processNode n pn st))
    (fun en cs proc st => keysOf st <+: keysOf (processChildren en cs proc st))
    ?_ ?_ ?_ ?_ ?_ ?_ ?_ ?_ ?_
  · intro v st p hcond
    simp only [processNode]
    rw [if_pos hcond]
    exact keysOf_setInfo_pre st p _
  · intro v st p hcond
    simp only [processNode]
    rw [if_neg hcond]
  · intro v st
    simp only [processNode]
    exact List.prefix_refl _
  · intro x st
    simp only [processNode]
    exact List.prefix_refl _
  · intro name attrs children x st ih
    simp only [processNode]
    calc keysOf st <+: keysOf (ensureRecord st name) := keysOf_ensureRecord_pre st name
      _ <+: keysOf (addAttributes (ensureRecord st name) name attrs) := keysOf_setInfo_pre _ _ _
      _ <+: _ := ih
  · intro x x1 st
    simp only [processChildren]
    exact List.prefix_refl _
  · intro en cn cattrs ckids cs proc st pr ih1 ih2
    simp only [processChildren]
    calc keysOf st <+: keysOf pr.2 := keysOf_childStep_pre en cn proc st
      _ <+: keysOf (processNode (XmlNode.element cn cattrs ckids) (some en) pr.2) := ih1
      _ <+: _ := ih2
  · intro en v cs proc st ih
    simp only [processChildren]
    refine List.IsPrefix.trans ?_ ih
    by_cases hv : v.trim ≠ ""
    · rw [if_pos hv]
      exact keysOf_setInfo_pre st en _
    · rw [if_neg hv]
  · intro en cs proc st ih
    simp only [processChildren]
    exact ih

/-! Well-formedness of accumulated records: attribute and children lists are
built exclusively with the JS Set add, hence duplicate free. -/

/-- Every recorded attribute set and children set is duplicate free. -/
def WfState (st : AccState) : Prop :=
  ∀ p ∈ st.elementInfo, p.2.attributes.Nodup ∧ p.2.children.Nodup

instance (st : AccState) : Decidable (WfState st) := by
  unfold WfState
  infer_instance

theorem wf_getInfo {st : AccState} (h : WfState st) (n : String) :
    (getInfo st n).attributes.Nodup ∧ (getInfo st n).children.Nodup := by
  unfold getInfo
  cases hg : mapGet st.elementInfo n with
  | none => simp [emptyInfo]
  | some i =>
      have hm : (n, i) ∈ st.elementInfo := mapGet_mem hg
      simpa using h (n, i) hm

theorem wfState_setInfo {st : AccState} {n : String} {i : ElementInfo}
    (hi : i.attributes.Nodup ∧ i.children.Nodup) (h : WfState st) :
    WfState (setInfo st n i) := by
  intro p hp
  rcases mem_mapSet hp with heq | ⟨hpm, _⟩
  · subst heq
    exact hi
  · exact h p hpm

theorem wfState_ensureRecord {st : AccState} (n : String) (h : WfState st) :
    WfState (ensureRecord st n) := by
  unfold ensureRecord
  by_cases hh : mapHas st.elementInfo n
  · rw [if_pos hh]
    exact h
  · rw [if_neg hh]
    intro p hp
    rcases mem_mapSet hp with heq | ⟨hpm, _⟩
    · subst heq
      exact ⟨List.nodup_nil, List.nodup_nil⟩
    · exact h p hpm

theorem wfState_addAttributes {st : AccState} (n : String) (attrs : List String)
    (h : WfState st) : WfState (addAttributes st n attrs) := by
  refine wfState_setInfo ⟨?_, (wf_getInfo h n).2⟩ h
  exact foldl_setAdd_nodup attrs _ (wf_getInfo h n).1

theorem wfState_setHasText {st : AccState} (n : String) (h : WfState st) :
    WfState (setHasText st n) :=
  wfState_setInfo ⟨(wf_getInfo h n).1, (wf_getInfo h n).2⟩ h

theorem wfState_childStep {st : AccState} (en cn : String) (proc : List String)
    (h : WfState st) : WfState (childStep en cn proc st).2 := by
  have h1 : WfState (setInfo st en
      { getInfo st en with children := setAdd (getInfo st en).children cn }) :=
    wfState_setInfo ⟨(wf_getInfo h en).1, setAdd_nodup cn (wf_getInfo h en).2⟩ h
  intro p hp
  rw [childStep_elementInfo] at hp
  exact h1 p hp

theorem wfState_processNode : ∀ (n : XmlNode) (pn : Option String) (st : AccState),
    WfState st → WfState (processNode n pn st) := by
  refine processNode.induct
    (fun n pn st => WfState st → WfState (processNode n pn st))
    (fun en cs proc st => WfState st → WfState (processChildren en cs proc st))
    ?_ ?_ ?_ ?_ ?_ ?_ ?_ ?_ ?_
  · intro v st p hcond h
    simp only [processNode]
    rw [if_pos hcond]
    exact wfState_setHasText p h
  · intro v st p hcond h
    simp only [processNode]
    rw [if_neg hcond]
    exact h
  · intro v st h
    simpa only [processNode] using h
  · intro x st h
    simpa only [processNode] using h
  · intro name attrs children x st ih h
    simp only [processNode]
    exact ih (wfState_addAttributes name attrs (wfState_ensureRecord name h))
  · intro x x1 st h
    simpa only [processChildren] using h
  · intro en cn cattrs ckids cs proc st pr ih1 ih2 h
    simp only [processChildren]
    exact ih2 (ih1 (wfState_childStep en cn proc h))
  · intro en v cs proc st ih h
    simp only [processChildren]
    apply ih
    by_cases hv : v.trim ≠ ""
    · rw [if_pos hv]
      exact wfState_setHasText en h
    · rw [if_neg hv]
      exact h
  · intro en cs proc st ih h
    simp only [processChildren]
    exact ih h

/-! Claim theorems. -/

theorem typeDef_children_eq (name : String) (info : ElementInfo) (ord : List String)
    (hc : info.children ≠ []) (hord : ord.Nodup) (hcn : info.children.Nodup) :
    typeDef name info (some ord)
      = "  <xs:complexType name=\"" ++ name ++ "Type\""
        ++ (if info.hasTextContent then " mixed=\"true\"" else "") ++ ">\n"
        ++ "    <xs:sequence>\n"
        ++ String.join ((ord ++ info.children.filter (fun c => decide (c ∉ ord))).map refLine)
        ++ "    </xs:sequence>\n"
        ++ String.join (info.attributes.map attrLine)
        ++ "  </xs:complexType>\n\n" := by
  obtain ⟨attrs, children, hasText⟩ := info
  simp only at hc hcn ⊢
  have hne : children.isEmpty = false := List.isEmpty_eq_false.mpr hc
  simp only [typeDef, hne, Bool.not_false, Bool.true_or, if_true, Bool.and_true,
    Option.getD_some, jsSetUnion_eq hord hcn, if_pos]

theorem dedup_append_nodup {ord children : List String} (hord : ord.Nodup)
    (hcn : children.Nodup) :
    (ord ++ children.filter (fun c => decide (c ∉ ord))).Nodup := by
  rw [List.nodup_append]
  refine ⟨hord, List.Nodup.filter _ hcn, ?_⟩
  intro a ha haf
  rcases List.mem_filter.mp haf with ⟨_, hdec⟩
  exact (of_decide_eq_true hdec) ha

theorem dedup_append_mem {ord children : List String}
    (hsub : ∀ c ∈ ord, c ∈ children) (c : String) :
    c ∈ ord ++ children.filter (fun c => decide (c ∉ ord)) ↔ c ∈ children := by
  rw [List.mem_append]
  constructor
  · rintro (hc | hc)
    · exact hsub c hc
    · exact (List.mem_filter.mp hc).1
  · intro hc
    by_cases ho : c ∈ ord
    · exact Or.inl ho
    · exact Or.inr (List.mem_filter.mpr ⟨hc, by simpa using ho⟩)

/-- C1: for every tag record with at least one distinct child tag, the
emitted type definition consists of a header that carries the mixed marker
exactly when the record's text flag is also up, a sequence holding exactly
one child reference line per distinct child tag name (each line fixed to
minOccurs zero and maxOccurs unbounded), ordered as the captured childOrder
followed by the children discovered later, and the attribute declarations
appended afterwards. -/
theorem c1_one_reference_per_distinct_child (name : String) (info : ElementInfo)
    (ord : List String) (hc : info.children ≠ []) (hord : ord.Nodup)
    (hsub : ∀ c ∈ ord, c ∈ info.children) (hcn : info.children.Nodup) :
    (typeDef name info (some ord)
      = "  <xs:complexType name=\"" ++ name ++ "Type\""
        ++ (if info.hasTextContent then " mixed=\"true\"" else "") ++ ">\n"
        ++ "    <xs:sequence>\n"
        ++ String.join ((ord ++ info.children.filter (fun c => decide (c ∉ ord))).map refLine)
        ++ "    </xs:sequence>\n"
        ++ String.join (info.attributes.map attrLine)
        ++ "  </xs:complexType>\n\n")
    ∧ (∀ c, c ∈ ord ++ info.children.filter (fun c => decide (c ∉ ord)) ↔ c ∈ info.children)
    ∧ (∀ c ∈ info.children,
        List.count c (ord ++ info.children.filter (fun c => decide (c ∉ ord))) = 1)
    ∧ (∀ c : String, strIncludes (refLine c) "minOccurs=\"0\" maxOccurs=\"unbounded\"") := by
  refine ⟨typeDef_children_eq name info ord hc hord hcn, dedup_append_mem hsub, ?_, ?_⟩
  · intro c hcmem
    exact List.count_eq_one_of_mem (dedup_append_nodup hord hcn)
      ((dedup_append_mem hsub c).mpr hcmem)
  · intro c
    unfold strIncludes refLine
    have h1 : ("minOccurs=\"0\" maxOccurs=\"unbounded\"" : String).data
        <:+: ("\" minOccurs=\"0\" maxOccurs=\"unbounded\"/>\n" : String).data := by decide
    refine h1.trans ?_
    rw [String.data_append, String.data_append]
    exact (List.suffix_append _ _).isInfix

/-- C4: a tag record with text, no attribute names and no child tags is
declared as a bare string-typed global element, and its type-definition
loop iteration contributes nothing to the schema. -/
theorem c4_text_only_bare_string (name : String) (info : ElementInfo)
    (o : Option (List String)) (ht : info.hasTextContent = true)
    (ha : info.attributes = []) (hc : info.children = []) :
    globalDecl name info = "  <xs:element name=\"" ++ name ++ "\" type=\"xs:string\"/>\n"
    ∧ typeDef name info o = "" := by
  obtain ⟨attrs, children, hasText⟩ := info
  simp only at ht ha hc
  subst ht ha hc
  constructor
  · simp [globalDecl]
  · simp [typeDef]

/-- C5: a tag record with text, no child tags and at least one attribute
name gets a simpleContent type definition extending the string type,
listing every recorded attribute name exactly once as an optional
string-typed attribute declaration. -/
theorem c5_simple_content_extension (name : String) (info : ElementInfo)
    (o : Option (List String)) (ht : info.hasTextContent = true)
    (hc : info.children = []) (ha : info.attributes ≠ [])
    (hnd : info.attributes.Nodup) :
    (typeDef name info o
      = "  <xs:complexType name=\"" ++ name ++ "Type\"" ++ ">\n"
        ++ "    <xs:simpleContent>\n" ++ "      <xs:extension base=\"xs:string\">\n"
        ++ String.join (info.attributes.map simpleAttrLine)
        ++ "      </xs:extension>\n" ++ "    </xs:simpleContent>\n"
        ++ "  </xs:complexType>\n\n")
    ∧ (∀ a ∈ info.attributes, List.count a info.attributes = 1)
    ∧ (∀ a : String, strIncludes (simpleAttrLine a) "type=\"xs:string\" use=\"optional\"") := by
  obtain ⟨attrs, children, hasText⟩ := info
  simp only at ht hc ha hnd ⊢
  subst ht hc
  refine ⟨?_, fun a haa => List.count_eq_one_of_mem hnd haa, fun a => ?_⟩
  · have hne : attrs.isEmpty = false := List.isEmpty_eq_false.mpr ha
    simp [typeDef, hne]
  · unfold strIncludes simpleAttrLine
    have h1 : ("type=\"xs:string\" use=\"optional\"" : String).data
        <:+: ("\" type=\"xs:string\" use=\"optional\"/>\n" : String).data := by decide
    refine h1.trans ?_
    rw [String.data_append, String.data_append]
    exact (List.suffix_append _ _).isInfix

/-- C6: a tag record with the text flag down and no child tags gets a type
definition whose content model is the explicitly empty optional sequence,
with the attribute declarations appended after it. -/
theorem c6_empty_content_model (name : String) (info : ElementInfo)
    (o : Option (List String)) (ht : info.hasTextContent = false)
    (hc : info.children = []) :
    typeDef name info o
      = "  <xs:complexType name=\"" ++ name ++ "Type\"" ++ ">\n"
        ++ "    <xs:sequence minOccurs=\"0\"/>\n"
        ++ String.join (info.attributes.map attrLine)
        ++ "  </xs:complexType>\n\n" := by
  obtain ⟨attrs, children, hasText⟩ := info
  simp only at ht hc ⊢
  subst ht hc
  by_cases ha : attrs = []
  · subst ha
    simp [typeDef]
  · have hne : attrs.isEmpty = false := List.isEmpty_eq_false.mpr ha
    simp [typeDef, hne]

/-- C2 counterexample: with a one-line parser diagnostic, generateXsd throws
the fallback message, which does not include the parser's diagnostic text. -/
theorem c2_counterexample_one_line_diagnostic :
    generateXsd ⟨some "error while parsing", none⟩
      = GenOutcome.failure "Invalid XML: Parsing failed." true
    ∧ ¬ strIncludes "Invalid XML: Parsing failed." "error while parsing" := by
  constructor
  · decide
  · decide

/-- C2 amended: on every parser-reported error generateXsd fails with the
ParseError, logging the diagnostic; the message embeds the second line of
the parser diagnostic when that line exists and is non empty, and is the
fixed fallback text otherwise. -/
theorem c2_message_embeds_second_line (t : String) (r : Option XmlNode) :
    generateXsd ⟨some t, r⟩ = GenOutcome.failure (parseErrorMessage t) true
    ∧ (∀ l, secondLine t = some l → l ≠ "" → strIncludes (parseErrorMessage t) l)
    ∧ ((secondLine t = none ∨ secondLine t = some "") →
        parseErrorMessage t = "Invalid XML: Parsing failed.") := by
  refine ⟨rfl, ?_, ?_⟩
  · intro l hl hlne
    unfold parseErrorMessage
    rw [hl]
    unfold strIncludes
    dsimp only
    rw [if_neg hlne, String.data_append]
    exact (List.suffix_append _ _).isInfix
  · rintro (h | h) <;> unfold parseErrorMessage <;> rw [h] <;> decide

theorem c2_message_embeds_second_line_witness :
    strIncludes (parseErrorMessage "first line\nsecond line") "second line" :=
  (c2_message_embeds_second_line "first line\nsecond line" none).2.1
    "second line" (by decide) (by decide)

/-- C3: on every parse result with no parser error and no root element
(empty, whitespace-only or comment-only input), generateXsd fails with the
fixed no-root message and does not log a parser diagnostic; that message
differs from the ParseError fallback message, and no parser-error input
produces the no-root outcome. -/
theorem c3_no_root_element_error (doc : XmlDoc) (hp : doc.parserError = none)
    (hr : doc.documentElement = none) :
    generateXsd doc = GenOutcome.failure noRootMessage false
    ∧ noRootMessage ≠ "Invalid XML: Parsing failed."
    ∧ (∀ t, generateXsd ⟨some t, none⟩ ≠ GenOutcome.failure noRootMessage false) := by
  obtain ⟨pe, de⟩ := doc
  simp only at hp hr
  subst hp hr
  refine ⟨rfl, by decide, ?_⟩
  intro t h
  simp [generateXsd] at h

theorem c3_no_root_element_error_witness :
    generateXsd ⟨none, none⟩ = GenOutcome.failure noRootMessage false :=
  (c3_no_root_element_error ⟨none, none⟩ rfl rfl).1

/-- C7: generateXsd is a deterministic function of the parse result — the
same input yields the identical outcome on every run, and the outcome
depends on nothing besides the two fields of the parse result.  The
insertion ordered maps and sets of the source are modelled as lists,
mirroring the insertion iteration order the JS Map and Set guarantee, so
no unordered internal storage can leak nondeterminism. -/
theorem c7_deterministic_output (doc : XmlDoc) :
    generateXsd doc = generateXsd doc
    ∧ (∀ d1 d2 : XmlDoc, d1.parserError = d2.parserError →
        d1.documentElement = d2.documentElement → generateXsd d1 = generateXsd d2) := by
  refine ⟨rfl, ?_⟩
  intro d1 d2 h1 h2
  obtain ⟨p1, e1⟩ := d1
  obtain ⟨p2, e2⟩ := d2
  simp only at h1 h2
  subst h1 h2
  rfl

theorem c7_deterministic_output_witness :
    generateXsd ⟨none, none⟩ = generateXsd ⟨none, none⟩ :=
  (c7_deterministic_output ⟨none, none⟩).2 ⟨none, none⟩ ⟨none, none⟩ rfl rfl

/-- C8: the childOrder invariant — the empty initial state satisfies it,
every childNodes step and every traversal step preserves it, and hence the
final accumulated map consumed by the emitter satisfies it: every captured
childOrder is duplicate free and a subset of the recorded childTagNames. -/
theorem c8_childOrder_subset_and_nodup :
    InvState ⟨[], []⟩
    ∧ (∀ en cn proc st, InvState st → InvState (childStep en cn proc st).2)
    ∧ (∀ n pn st, InvState st → InvState (processNode n pn st))
    ∧ (∀ root, InvState (processNode root none ⟨[], []⟩)) := by
  have hempty : InvState ⟨[], []⟩ := by
    intro p hp
    exact absurd hp (List.not_mem_nil p)
  exact ⟨hempty, fun en cn proc st h => invState_childStep en cn proc h,
    invState_processNode, fun root => invState_processNode root none ⟨[], []⟩ hempty⟩

theorem c8_childOrder_subset_and_nodup_witness :
    InvState (processNode (XmlNode.element "order" []
      [XmlNode.element "customer" [] [], XmlNode.element "items" [] [],
       XmlNode.element "customer" [] []]) none ⟨[], []⟩) :=
  c8_childOrder_subset_and_nodup.2.2.1 _ none ⟨[], []⟩ (by decide)

/-- C10: a parse result carrying a parser-error node makes generateXsd
throw the ParseError outcome without consulting the document element, so
the ParseError takes precedence over the no-root error when an input
satisfies both failure conditions. -/
theorem c10_parse_error_takes_precedence (t : String) (r : Option XmlNode) :
    generateXsd ⟨some t, r⟩ = GenOutcome.failure (parseErrorMessage t) true
    ∧ generateXsd ⟨some t, r⟩ = generateXsd ⟨some t, none⟩ :=
  ⟨rfl, rfl⟩

/-- String prefix containment, matching the JS String.startsWith used to
phrase the type-name shape property. -/
def strStarts (s pre : String) : Prop := pre.data <+: s.data

theorem strStarts_append (pre tail : String) : strStarts (pre ++ tail) pre := by
  unfold strStarts
  rw [String.data_append]
  exact List.prefix_append _ _

theorem strStarts_append_lift {s pre : String} (h : strStarts s pre) (t : String) :
    strStarts (s ++ t) pre := by
  unfold strStarts at h ⊢
  rw [String.data_append]
  exact h.trans (List.prefix_append _ _)

theorem typeDef_name_shape (name : String) (info : ElementInfo)
    (o : Option (List String)) :
    typeDef name info o = ""
    ∨ strStarts (typeDef name info o) ("  <xs:complexType name=\"" ++ name ++ "Type\"") := by
  obtain ⟨attrs, children, hasText⟩ := info
  cases children with
  | cons c cs =>
      right
      simp only [typeDef, List.isEmpty_cons, Bool.not_false, Bool.true_or, if_true,
        Bool.and_true]
      repeat (first
        | exact strStarts_append _ _
        | apply strStarts_append_lift)
  | nil =>
      cases attrs with
      | nil =>
          cases hasText with
          | true =>
              left
              simp [typeDef]
          | false =>
              right
              simp only [typeDef]
              simp
              repeat (first
                | exact strStarts_append _ _
                | apply strStarts_append_lift)
      | cons a as =>
          cases hasText with
          | true =>
              right
              simp only [typeDef]
              simp
              repeat (first
                | exact strStarts_append _ _
                | apply strStarts_append_lift)
          | false =>
              right
              simp only [typeDef]
              simp
              repeat (first
                | exact strStarts_append _ _
                | apply strStarts_append_lift)

/-- C9: a successful conversion returns exactly the rendered document: the
XML declaration line, the fixed schema opening tag binding xs to the
XML-Schema namespace and binding targetNamespace and the tns prefix to the
fixed placeholder URI, then every global element declaration in map
insertion order, then every type definition in the same order, then the
schema closing tag.  Every non-empty type definition opens with the tag
name suffixed by the fixed literal Type, and the traversal only ever
appends newly encountered tags to the map, so insertion order is
first-encounter order. -/
theorem c9_schema_document_layout (root : XmlNode) :
    (generateXsd ⟨none, some root⟩
      = GenOutcome.ok (emitXsd (processNode root none ⟨[], []⟩)))
    ∧ (∀ st : AccState, emitXsd st
        = xmlDeclLine ++ schemaOpenTag
          ++ "  <!-- Global Element Declarations -->\n"
          ++ String.join (st.elementInfo.map (fun p => globalDecl p.1 p.2)) ++ "\n"
          ++ "  <!-- Complex Type Definitions -->\n"
          ++ String.join (st.elementInfo.map
              (fun p => typeDef p.1 p.2 (mapGet st.elementOrder p.1)))
          ++ "</xs:schema>\n")
    ∧ xmlDeclLine = "<?xml version=\"1.0\" encoding=\"UTF-8\"?>\n"
    ∧ strIncludes schemaOpenTag "xmlns:xs=\"http://www.w3.org/2001/XMLSchema\""
    ∧ strIncludes schemaOpenTag "targetNamespace=\"http://example.com/generatedSchema\""
    ∧ strIncludes schemaOpenTag "xmlns:tns=\"http://example.com/generatedSchema\""
    ∧ (∀ name info o, typeDef name info o = ""
        ∨ strStarts (typeDef name info o) ("  <xs:complexType name=\"" ++ name ++ "Type\""))
    ∧ (∀ n pn st, keysOf st <+: keysOf (processNode n pn st)) :=
  ⟨rfl, fun _ => rfl, rfl, by decide, by decide, by decide,
   typeDef_name_shape, keysOf_processNode⟩

theorem c1_one_reference_per_distinct_child_witness :
    strIncludes (refLine "item") "minOccurs=\"0\" maxOccurs=\"unbounded\"" :=
  (c1_one_reference_per_distinct_child "root" ⟨[], ["item"], false⟩ ["item"]
    (by decide) (by decide) (by decide) (by decide)).2.2.2 "item"

theorem c4_text_only_bare_string_witness :
    globalDecl "message" ⟨[], [], true⟩
      = "  <xs:element name=\"" ++ "message" ++ "\" type=\"xs:string\"/>\n"
    ∧ typeDef "message" ⟨[], [], true⟩ none = "" :=
  c4_text_only_bare_string "message" ⟨[], [], true⟩ none rfl rfl rfl

theorem c5_simple_content_extension_witness :
    strIncludes (simpleAttrLine "unit") "type=\"xs:string\" use=\"optional\"" :=
  (c5_simple_content_extension "measurement" ⟨["unit"], [], true⟩ none
    rfl rfl (by decide) (by decide)).2.2 "unit"

theorem c6_empty_content_model_witness :
    typeDef "config" ⟨["active"], [], false⟩ none
      = "  <xs:complexType name=\"" ++ "config" ++ "Type\"" ++ ">\n"
        ++ "    <xs:sequence minOccurs=\"0\"/>\n"
        ++ String.join (List.map attrLine ["active"])
        ++ "  </xs:complexType>\n\n" :=
  c6_empty_content_model "config" ⟨["active"], [], false⟩ none rfl rfl
